import Mathlib

/-!
# net-switch: path selection and route reconciliation

A shallow embedding of `link/link.go`, `link/metrics.go` and `utils/route.go`.

* Go `float64` values are modelled exactly (IEEE-754 binary64, round to nearest,
  ties to even) by the type `F64`; every finite binary64 value is an integer
  multiple of `2^(-1074)`, so a finite value is stored as a sign and that integer.
* Go `int` is 64 bits wide.
* Go strings are Lean strings, Go `error` values are their messages.
* Commands handed to `exec.Command` are recorded as argument lists.
-/

set_option exponentiation.threshold 5000

/-! ## IEEE-754 binary64 -/

/-- A Go `float64`: NaN, an infinity, or the finite value `(-1)^neg * k * 2^(-1074)`. -/
inductive F64 where
  | nan : F64
  | inf (neg : Bool) : F64
  | fin (neg : Bool) (k : Nat) : F64
deriving DecidableEq

namespace F64

/-- The value 1.0 counted in multiples of `2^(-1074)`. -/
def unit : Nat := 2 ^ 1074

/-- The value `2^1024` counted in multiples of `2^(-1074)`: the first magnitude that
is no longer a finite binary64 value. -/
def huge : Nat := 2 ^ 2098

/-- Binary search for the bit length of `n`, exact for `n < 2^(2^i)`. -/
def sizeAux : Nat → Nat → Nat → Nat
  | 0, n, acc => if n = 0 then acc else acc + 1
  | i + 1, n, acc =>
    if 2 ^ (2 ^ i) ≤ n then sizeAux i (n / 2 ^ (2 ^ i)) (acc + 2 ^ i) else sizeAux i n acc

/-- Bit length of `n` (equal to `Nat.size n`, see `size_eq`): the binary search is
checked, and `Nat.size` is used where it would be off. -/
def size (n : Nat) : Nat :=
  let s := sizeAux 12 n 0
  if n < 2 ^ s ∧ (s = 0 ∨ 2 ^ (s - 1) ≤ n) then s else Nat.size n

/-- Spacing, in multiples of `2^(-1074)`, of the binary64 values in the binade of a
magnitude whose integer part is `fl`: 53 significant bits are kept. -/
def ulpOf (fl : Nat) : Nat := 2 ^ (size fl - 53)

/-- Round the exact magnitude `n / d` (in multiples of `2^(-1074)`, `d > 0`) to the nearest
binary64 value, ties to even, overflowing to an infinity. -/
def roundUnits (neg : Bool) (n d : Nat) : F64 :=
  let u := ulpOf (n / d)
  let q := n / (d * u)
  let r := n % (d * u)
  let up := decide (d * u < 2 * r) || (decide (2 * r = d * u) && decide (q % 2 = 1))
  let k := (if up then q + 1 else q) * u
  if huge ≤ k then inf neg else fin neg k

/-- Newton iteration for the integer square root, started above the root. -/
def newton : Nat → Nat → Nat → Nat
  | 0, _, x => x
  | f + 1, n, x => if (x + n / x) / 2 < x then newton f n ((x + n / x) / 2) else x

/-- Integer square root (equal to `Nat.sqrt n`, see `isqrt_eq`): the Newton result is
checked, and `Nat.sqrt` is used where it would be off. -/
def isqrt (n : Nat) : Nat :=
  let s := newton 64 n (2 ^ ((size n + 1) / 2))
  if s * s ≤ n ∧ n < (s + 1) * (s + 1) then s else Nat.sqrt n

/-- Round the exact magnitude `sqrt n` (in multiples of `2^(-1074)`) to the nearest binary64
value, ties to even. -/
def roundSqrt (n : Nat) : F64 :=
  let s := isqrt n
  let u := ulpOf s
  let q := s / u
  let mid := 2 * (q * u) + u
  let up := decide (mid * mid < 4 * n) || (decide (mid * mid = 4 * n) && decide (q % 2 = 1))
  fin false ((if up then q + 1 else q) * u)

/-- Positive zero, the Go constant `0.0`. -/
def zero : F64 := fin false 0

/-- The non-negative integer `n` as a float64 (exact for `n < 2^53`). -/
def ofNat (n : Nat) : F64 := fin false (n * unit)

/-- The Go constant `1`. -/
def one : F64 := ofNat 1

/-- The decimal or rational constant `n / d` as a float64, correctly rounded. -/
def ofRatio (n d : Nat) : F64 := roundUnits false (n * unit) d

/-- The value `math.Inf(1)`. -/
def posInf : F64 := inf false

/-- Go `x / y` on float64. -/
def div : F64 → F64 → F64
  | nan, _ => nan
  | _, nan => nan
  | inf _, inf _ => nan
  | inf s, fin t _ => inf (xor s t)
  | fin s _, inf t => fin (xor s t) 0
  | fin s a, fin t b =>
    if b = 0 then (if a = 0 then nan else inf (xor s t))
    else roundUnits (xor s t) (a * unit) b

/-- Go `x * y` on float64. -/
def mul : F64 → F64 → F64
  | nan, _ => nan
  | _, nan => nan
  | inf s, inf t => inf (xor s t)
  | inf s, fin t b => if b = 0 then nan else inf (xor s t)
  | fin s a, inf t => if a = 0 then nan else inf (xor s t)
  | fin s a, fin t b => roundUnits (xor s t) (a * b) unit

/-- Go `math.Sqrt`. -/
def sqrt : F64 → F64
  | nan => nan
  | inf false => inf false
  | inf true => nan
  | fin s 0 => fin s 0
  | fin true (_ + 1) => nan
  | fin false k => roundSqrt (k * unit)

/-- A finite value as a signed count of multiples of `2^(-1074)`. -/
def signed (neg : Bool) (k : Nat) : Int := if neg then -(k : Int) else (k : Int)

/-- Go `x < y` on float64. -/
def lt : F64 → F64 → Bool
  | nan, _ => false
  | _, nan => false
  | inf a, inf b => a && !b
  | inf a, fin _ _ => a
  | fin _ _, inf b => !b
  | fin s a, fin t b => decide (signed s a < signed t b)

/-- Go `x == y` on float64. -/
def eq : F64 → F64 → Bool
  | nan, _ => false
  | _, nan => false
  | inf a, inf b => a == b
  | inf _, fin _ _ => false
  | fin _ _, inf _ => false
  | fin s a, fin t b => decide (signed s a = signed t b)

/-- Go `x > y` on float64. -/
def gt (x y : F64) : Bool := lt y x

/-- Go `x <= y` on float64. -/
def le (x y : F64) : Bool := lt x y || eq x y

/-- Go `int(x)` on a 64-bit platform: the fraction is discarded; where the truncated value
does not fit in an `int` (and for NaN and the infinities) the language leaves the result to
the implementation, here `arch`. -/
def toInt (arch : F64 → Int) : F64 → Int
  | nan => arch nan
  | inf s => arch (inf s)
  | fin s k =>
    if -(2 ^ 63 : Int) ≤ signed s (k / unit) ∧ signed s (k / unit) < 2 ^ 63
    then signed s (k / unit) else arch (fin s k)

/-- What amd64 stores for an out-of-range conversion: the smallest `int`. -/
def amd64 : F64 → Int := fun _ => -(2 ^ 63)

/-- The value is a binary64 value: a finite one is below `2^1024` and has at most 53
significant bits. -/
def valid : F64 → Bool
  | nan => true
  | inf _ => true
  | fin _ k => decide (k < huge) && decide (k % ulpOf k = 0)

end F64

/-! ## link/metrics.go -/

/-- The struct `InterfaceMetrics`. -/
structure InterfaceMetrics where
  Availability : F64
  Latency : F64
  Jitter : F64
  PacketLoss : F64
deriving DecidableEq

/-- The `map[string]*InterfaceMetrics` that `getMetrics` returns without error: it is
created with exactly the keys "4" and "6" and no key is ever added. -/
structure MetricsMap where
  v4 : InterfaceMetrics
  v6 : InterfaceMetrics
deriving DecidableEq

/-- Digits of a decimal numeral, most significant first, folded into `acc`; `none` on a
character that is not an ASCII digit. -/
def parseDigits : List Char → Nat → Option Nat
  | [], acc => some acc
  | c :: cs, acc =>
    if '0' ≤ c ∧ c ≤ '9' then parseDigits cs (acc * 10 + (c.toNat - '0'.toNat)) else none

/-- A non-empty run of decimal digits. -/
def parseUint (cs : List Char) : Option Nat :=
  if cs = [] then none else parseDigits cs 0

/-- Go `strconv.Atoi` for a 64-bit `int`: an optional sign, then one or more decimal
digits, the value within `[-2^63, 2^63 - 1]`; `none` stands for a non-nil error. -/
def Atoi (s : String) : Option Int :=
  match s.data with
  | [] => none
  | '-' :: cs =>
    match parseUint cs with
    | some n => if n ≤ 2 ^ 63 then some (-(n : Int)) else none
    | none => none
  | '+' :: cs =>
    match parseUint cs with
    | some n => if n < 2 ^ 63 then some (n : Int) else none
    | none => none
  | cs =>
    match parseUint cs with
    | some n => if n < 2 ^ 63 then some (n : Int) else none
    | none => none

/-- Go `strconv.Itoa`: the decimal numeral, with a leading `-` for a negative value. -/
def Itoa (i : Int) : String := toString i

/-- The function `getPathLabel`, with the package variable `localID` as an argument. -/
def getPathLabel (localID remote : String) : String :=
  match Atoi localID with
  | none => ""
  | some intLocalID =>
    match Atoi remote with
    | none => ""
    | some intRemoteID =>
      if intLocalID > intRemoteID then
        Itoa intRemoteID ++ "-" ++ Itoa intLocalID
      else
        Itoa intLocalID ++ "-" ++ Itoa intRemoteID

/-! ## link/link.go: choosePreferredVersion -/

/-- The score expression `1 / ((m.Latency / 1e6) * (math.Sqrt(m.PacketLoss / 100)))`. -/
def scoreOf (m : InterfaceMetrics) : F64 :=
  F64.div F64.one
    (F64.mul (F64.div m.Latency (F64.ofNat 1000000))
      (F64.sqrt (F64.div m.PacketLoss (F64.ofNat 100))))

/-- The entry of `versionScoreMap` for one family after the scoring loop: it starts at `0.0`
and is left there when the latency is zero. -/
def versionScore (m : InterfaceMetrics) : F64 :=
  if F64.eq m.Latency F64.zero then F64.zero else scoreOf m

/-- The function `choosePreferredVersion`; `fetched` is what `getMetrics(remote)` returned.
The result is `(version, reason, err)`. -/
def choosePreferredVersion (arch : F64 → Int) (fetched : Except String MetricsMap) :
    String × String × Option String :=
  match fetched with
  | .error err => ("", "", some err)
  | .ok metrics =>
    if F64.toInt arch metrics.v4.Availability ≠ 1 ∧ F64.toInt arch metrics.v6.Availability ≠ 1 then
      if F64.gt metrics.v4.Availability metrics.v6.Availability then
        ("4", "higher availability", none)
      else
        ("6", "higher availability", none)
    else if F64.eq (versionScore metrics.v4) F64.posInf
        && F64.eq (versionScore metrics.v6) F64.posInf then
      if F64.lt metrics.v4.Latency metrics.v6.Latency then
        ("4", "lower latency", none)
      else
        ("6", "lower latency", none)
    else
      if F64.gt (versionScore metrics.v4) (versionScore metrics.v6) then
        ("4", "higher score", none)
      else
        ("6", "higher score", none)

/-! ## utils/route.go -/

/-- A four-byte `net.IP` as `parseIP` builds it. -/
structure IP where
  b0 : Nat
  b1 : Nat
  b2 : Nat
  b3 : Nat
deriving DecidableEq

/-- The struct `Route`. -/
structure Route where
  Destination : IP
  Gateway : IP
  Flags : Int
  Iface : String
  Mask : IP
deriving DecidableEq

/-- The method `net.IP.String` on a four-byte address: dotted decimal. -/
def IP.String (ip : IP) : String :=
  toString ip.b0 ++ "." ++ toString ip.b1 ++ "." ++ toString ip.b2 ++ "." ++ toString ip.b3

/-- Pieces of a character list between occurrences of `sep`. -/
def splitChars (sep : Char) : List Char → List (List Char)
  | [] => [[]]
  | c :: cs =>
    if c = sep then [] :: splitChars sep cs
    else
      match splitChars sep cs with
      | [] => [[c]]
      | w :: ws => (c :: w) :: ws

/-- Go `strings.Split(s, sep)` for a separator of one character. -/
def stringsSplit (s : String) (sep : Char) : List String :=
  (splitChars sep s.data).map String.mk

/-- The test of `GetOutgoingWGInterface` on one route:
`ipAddr[1] == "201" && ipAddr[2] == dst && ipAddr[3] == "0"`. -/
def routeMatches (dst : String) (route : Route) : Bool :=
  let ipAddr := stringsSplit route.Destination.String '.'
  decide (ipAddr.getD 1 "" = "201") && decide (ipAddr.getD 2 "" = dst)
    && decide (ipAddr.getD 3 "" = "0")

/-- The function `GetOutgoingWGInterface`; `table` is what `GetWGRouteTable()` returned. -/
def GetOutgoingWGInterface (table : Except String (List Route)) (dst : String) : String :=
  match table with
  | .error _ => ""
  | .ok routes =>
    match routes.find? (routeMatches dst) with
    | some route => route.Iface
    | none => ""

/-! ## link/link.go: mustUpdateRoutes and startWorker -/

/-- The fields of the interface records of `perfutils.GetAllWGInterfaces` that the code reads. -/
structure WGInterface where
  Name : String
  RemoteID : String
  IPVersion : String
deriving DecidableEq

/-- The entry `remoteVersionMap[remote]` after the loop over the interfaces. -/
def remoteVersions (ifaces : List WGInterface) (remote : String) : List String :=
  (ifaces.filter (fun iface => iface.RemoteID = remote)).map (fun iface => iface.IPVersion)

/-- The interface name `"wg"+localID+"."+remote+"_v"+version`. -/
def ifaceName (localID remote version : String) : String :=
  "wg" ++ localID ++ "." ++ remote ++ "_v" ++ version

/-- The version chosen for one remote at the top of the loop body of `mustUpdateRoutes`,
with the reason; `none` is the `continue`. `fetched` is what `getMetrics(remote)` returns. -/
def selectVersion (arch : F64 → Int) (justStarted : Bool) (versions : List String)
    (fetched : Except String MetricsMap) : Option (String × String) :=
  if versions.length > 1 then
    match choosePreferredVersion arch fetched with
    | (version, reason, _) =>
      if justStarted then some ("4", reason)
      else if version = "" then none
      else some (version, reason)
  else
    match versions with
    | v :: _ => some (v, "")
    | [] => none

/-- The commands run for one remote once the version is chosen, as the argument lists given
to `exec.Command`, in order; `iface` is what `GetOutgoingWGInterface(remote)` returned. A
failing command is logged and the next one is still run. -/
def routeCommands (localID remote version iface : String) : List (List String) :=
  if iface = "" then
    [["ip", "route", "add", "10.201." ++ remote ++ ".0/24", "dev",
        ifaceName localID remote version, "scope", "link", "src", "10.201." ++ localID ++ ".1"],
     ["ip", "-6", "route", "add", "fdac:c9:" ++ remote ++ "::/64", "dev",
        ifaceName localID remote version, "scope", "link"]]
  else if iface ≠ ifaceName localID remote version then
    [["ip", "route", "change", "10.201." ++ remote ++ ".0/24", "dev",
        ifaceName localID remote version, "scope", "link", "src", "10.201." ++ localID ++ ".1"],
     ["ip", "-6", "route", "change", "fdac:c9:" ++ remote ++ "::/64", "dev",
        ifaceName localID remote version, "scope", "link"]]
  else
    []

/-- The loop body of `mustUpdateRoutes` for one remote: the commands it runs. -/
def updateRemote (arch : F64 → Int) (localID : String) (justStarted : Bool)
    (table : Except String (List Route)) (remote : String) (versions : List String)
    (fetched : Except String MetricsMap) : List (List String) :=
  match selectVersion arch justStarted versions fetched with
  | none => []
  | some (version, _) => routeCommands localID remote version (GetOutgoingWGInterface table remote)

/-- The value of `justStarted` read by each call of `mustUpdateRoutes` that `startWorker`
makes, in order, up to the given number of ticks: the variable starts `true`, the first call
runs before it is set to `false`, and it is never set again. -/
def startWorker (ticks : Nat) : List Bool :=
  true :: List.replicate ticks false

/-! ## Reading aids for the statements below -/

/-- The comparison that decides `choosePreferredVersion` on `(m4, m6)` is strict in neither
direction: the two availabilities in the both-degraded case, the two latencies when both
scores are `+Inf`, the two scores otherwise are equal or unordered. -/
def decidingTie (arch : F64 → Int) (m4 m6 : InterfaceMetrics) : Bool :=
  if F64.toInt arch m4.Availability ≠ 1 ∧ F64.toInt arch m6.Availability ≠ 1 then
    !(F64.gt m4.Availability m6.Availability || F64.gt m6.Availability m4.Availability)
  else if F64.eq (versionScore m4) F64.posInf && F64.eq (versionScore m6) F64.posInf then
    !(F64.lt m4.Latency m6.Latency || F64.lt m6.Latency m4.Latency)
  else
    !(F64.gt (versionScore m4) (versionScore m6) || F64.gt (versionScore m6) (versionScore m4))

/-- The other address family. -/
def otherFamily (v : String) : String := if v = "4" then "6" else "4"

/-! ## Sample inputs -/

/-- The value 0.5. -/
def half : F64 := F64.ofRatio 1 2

/-- The value 0.25. -/
def quarter : F64 := F64.ofRatio 1 4

/-- Fully available, latency 4 000 000, loss 100: score 0.25. -/
def upSlow : InterfaceMetrics := ⟨F64.one, F64.ofNat 4000000, F64.zero, F64.ofNat 100⟩

/-- Fully available, latency 1 000 000, loss 100: score 1. -/
def upFast : InterfaceMetrics := ⟨F64.one, F64.ofNat 1000000, F64.zero, F64.ofNat 100⟩

/-- Fully available, latency 2 000 000, loss 25: score 1. -/
def upMid : InterfaceMetrics := ⟨F64.one, F64.ofNat 2000000, F64.zero, F64.ofNat 25⟩

/-- Availability 0.5, latency 1 000 000, loss 100: score 1. -/
def degradedFast : InterfaceMetrics := ⟨half, F64.ofNat 1000000, F64.zero, F64.ofNat 100⟩

/-- Availability 0.5, latency 4 000 000, loss 100: score 0.25. -/
def degradedSlow : InterfaceMetrics := ⟨half, F64.ofNat 4000000, F64.zero, F64.ofNat 100⟩

/-- Availability 0.25, no latency or loss sample. -/
def degradedMore : InterfaceMetrics := ⟨quarter, F64.zero, F64.zero, F64.zero⟩

/-- Availability 0.5, latency 1000, no loss. -/
def degradedClean1 : InterfaceMetrics := ⟨half, F64.ofNat 1000, F64.zero, F64.zero⟩

/-- Availability 0.5, latency 2000, no loss. -/
def degradedClean2 : InterfaceMetrics := ⟨half, F64.ofNat 2000, F64.zero, F64.zero⟩

/-- Fully available, latency 1000, no loss. -/
def upClean1 : InterfaceMetrics := ⟨F64.one, F64.ofNat 1000, F64.zero, F64.zero⟩

/-- Fully available, latency 2000, no loss. -/
def upClean2 : InterfaceMetrics := ⟨F64.one, F64.ofNat 2000, F64.zero, F64.zero⟩

/-- The netmask of a /24. -/
def mask24 : IP := ⟨255, 255, 255, 0⟩

/-- The netmask of a /25. -/
def mask25 : IP := ⟨255, 255, 255, 128⟩

/-- A route to `dst` with netmask `mask` through `iface`, no gateway, flag `U`. -/
def routeVia (dst mask : IP) (iface : String) : Route :=
  ⟨dst, ⟨0, 0, 0, 0⟩, 1, iface, mask⟩

/-- A table with one route, 10.201.5.0/24 through `wg1.5_v6`. -/
def tableV6 : Except String (List Route) :=
  .ok [routeVia ⟨10, 201, 5, 0⟩ mask24 "wg1.5_v6"]

/-- A table that lists 10.201.5.0/25 through `wg1.5_v6` and then 10.201.5.0/24 through
`wg1.5_v4`. -/
def tableV6ThenV4 : Except String (List Route) :=
  .ok [routeVia ⟨10, 201, 5, 0⟩ mask25 "wg1.5_v6", routeVia ⟨10, 201, 5, 0⟩ mask24 "wg1.5_v4"]

/-- The interfaces of a node 1 with both tunnels to remote 5. -/
def ifacesBoth : List WGInterface :=
  [⟨"wg1.5_v4", "5", "4"⟩, ⟨"wg1.5_v6", "5", "6"⟩]

/-! ## Facts about the float64 model -/

namespace F64

theorem size_eq (n : Nat) : size n = Nat.size n := by
  unfold size
  simp only
  split
  · rename_i h
    obtain ⟨h1, h2⟩ := h
    apply Nat.le_antisymm
    · rcases h2 with h2 | h2
      · omega
      · have := (Nat.lt_size).2 h2
        omega
    · exact Nat.size_le.2 h1
  · rfl

theorem isqrt_eq (n : Nat) : isqrt n = Nat.sqrt n := by
  unfold isqrt
  simp only
  split
  · rename_i h
    exact Nat.eq_sqrt.2 h
  · rfl

theorem ulpOf_pos (fl : Nat) : 0 < ulpOf fl := by
  unfold ulpOf
  exact Nat.pos_pow_of_pos _ (by decide)

theorem ulpOf_le (fl : Nat) : ulpOf fl ≤ fl + 1 := by
  unfold ulpOf
  rw [size_eq]
  by_cases h : Nat.size fl - 53 < Nat.size fl
  · have := (Nat.lt_size).1 h
    omega
  · have h0 : Nat.size fl - 53 = 0 := by omega
    rw [h0]
    simp

/-- Rounding a magnitude well below `2^1024` gives a finite value of the same sign. -/
theorem roundUnits_fin (neg : Bool) (n d : Nat) (h : 2 * (n / d) + 1 < huge) :
    ∃ k, roundUnits neg n d = fin neg k := by
  unfold roundUnits
  simp only
  have hu := ulpOf_le (n / d)
  have hpos := ulpOf_pos (n / d)
  generalize ulpOf (n / d) = u at hu hpos
  have hq : n / (d * u) * u ≤ n / d := by
    rw [← Nat.div_div_eq_div_mul]
    exact Nat.div_mul_le_self _ _
  have hk : ∀ b : Bool, (if b = true then n / (d * u) + 1 else n / (d * u)) * u < huge := by
    intro b
    cases b
    · simp only [Bool.false_eq_true, if_false]
      omega
    · simp only [if_true]
      rw [Nat.add_mul, Nat.one_mul]
      omega
  generalize (decide (d * u < 2 * (n % (d * u))) ||
    (decide (2 * (n % (d * u)) = d * u) && decide (n / (d * u) % 2 = 1))) = b
  have := hk b
  rw [if_neg (by omega)]
  exact ⟨_, rfl⟩

theorem roundUnits_zero (neg : Bool) (d : Nat) : roundUnits neg 0 d = fin neg 0 := by
  have h0 : ulpOf 0 = 1 := by decide
  simp [roundUnits, h0, huge]

/-- Known values: `1/3`, `sqrt 2`, the constant `0.1` and `0.1 * 0.1` have the binary64
significands 6004799503160661, 6369051672525773, 7205759403792794 and 5764607523034236 at
exponents -54, -52, -56 and -59. -/
theorem known_roundings :
    div one (ofNat 3) = fin false (6004799503160661 * 2 ^ 1020) ∧
    sqrt (ofNat 2) = fin false (6369051672525773 * 2 ^ 1022) ∧
    ofRatio 1 10 = fin false (7205759403792794 * 2 ^ 1018) ∧
    mul (ofRatio 1 10) (ofRatio 1 10) = fin false (5764607523034236 * 2 ^ 1015) := by
  decide

/-- Known values at the ends of the range: doubling the largest finite value overflows to
`+Inf`, halving the smallest positive value rounds to `+0`, and three halves of it round to
twice it (ties to even). -/
theorem known_range_ends :
    mul (fin false (9007199254740991 * 2 ^ 2045)) (ofNat 2) = inf false ∧
    div (fin false 1) (ofNat 2) = fin false 0 ∧
    mul (fin false 1) (ofRatio 3 2) = fin false 2 := by
  decide

theorem lt_irrefl (x : F64) : lt x x = false := by
  cases x with
  | nan => rfl
  | inf s => cases s <;> rfl
  | fin s k => simp [lt]

theorem lt_asymm (x y : F64) (h : lt x y = true) : lt y x = false := by
  cases x with
  | nan => simp [lt] at h
  | inf a =>
    cases y with
    | nan => simp [lt] at h
    | inf b => cases a <;> cases b <;> simp_all [lt]
    | fin t b => cases a <;> simp_all [lt]
  | fin s a =>
    cases y with
    | nan => simp [lt] at h
    | inf b => cases b <;> simp_all [lt]
    | fin t b =>
      simp only [lt, decide_eq_true_eq] at h
      simp only [lt, decide_eq_false_iff_not]
      omega

theorem toInt_one (arch : F64 → Int) : toInt arch one = 1 := by
  rfl

/-- Truncation of a value in `[0, 1)` is `0`. -/
theorem toInt_unit_interval (arch : F64 → Int) (a : F64)
    (h0 : le zero a = true) (h1 : le a one = true) (hne : F64.eq a one = false) :
    toInt arch a = 0 := by
  cases a with
  | nan => simp [le, lt, F64.eq, zero] at h0
  | inf s => cases s <;> simp [le, lt, F64.eq, zero, one, ofNat] at h0 h1
  | fin s k =>
    simp only [le, lt, F64.eq, zero, one, ofNat, Bool.or_eq_true, decide_eq_true_eq,
      decide_eq_false_iff_not] at h0 h1 hne
    have hk : k / unit = 0 := by
      apply Nat.div_eq_of_lt
      cases s <;> simp only [signed, Bool.false_eq_true, if_false, if_true] at h0 h1 hne
      · omega
      · have : 0 < unit := Nat.pos_pow_of_pos _ (by decide)
        omega
    simp only [toInt, hk]
    cases s <;> simp [signed]

end F64

/-- With no loss sample (`+0`) and a finite positive latency the score is `+Inf`. -/
theorem versionScore_no_loss (m : InterfaceMetrics) (hv : F64.valid m.Latency = true)
    (hpos : F64.lt F64.zero m.Latency = true) (hfin : F64.lt m.Latency F64.posInf = true)
    (hloss : m.PacketLoss = F64.zero) : versionScore m = F64.posInf := by
  obtain ⟨av, lat, jit, loss⟩ := m
  simp only at hv hpos hfin hloss
  subst hloss
  cases lat with
  | nan => simp [F64.lt, F64.zero] at hpos
  | inf s => cases s <;> simp [F64.lt, F64.zero, F64.posInf] at hpos hfin
  | fin s k =>
    simp only [F64.lt, F64.zero, decide_eq_true_eq] at hpos
    simp only [F64.valid, Bool.and_eq_true, decide_eq_true_eq] at hv
    have hs : s = false := by
      cases s
      · rfl
      · simp only [F64.signed, if_true, Bool.false_eq_true, if_false] at hpos
        omega
    subst hs
    simp only [F64.signed, Bool.false_eq_true, if_false] at hpos
    have hk : 0 < k := by omega
    have hne : F64.eq (F64.fin false k) F64.zero = false := by
      simp only [F64.eq, F64.zero, F64.signed, Bool.false_eq_true, if_false,
        decide_eq_false_iff_not]
      omega
    have hd : ∃ k2, F64.div (F64.fin false k) (F64.ofNat 1000000) = F64.fin false k2 := by
      have hu : 0 < F64.unit := Nat.pos_pow_of_pos _ (by decide)
      have hb : 1000000 * F64.unit ≠ 0 := by omega
      simp only [F64.div, F64.ofNat, if_neg hb, Bool.xor_false]
      apply F64.roundUnits_fin
      have h1 : k * F64.unit / (1000000 * F64.unit) ≤ k := by
        rw [Nat.mul_comm 1000000, ← Nat.div_div_eq_div_mul, Nat.mul_div_cancel _ hu]
        exact Nat.div_le_self _ _
      have h2 : k * F64.unit / (1000000 * F64.unit) ≤ k / 1000000 := by
        rw [Nat.mul_comm 1000000, ← Nat.div_div_eq_div_mul, Nat.mul_div_cancel _ hu]
      have h3 : F64.huge = 2 ^ 2098 := rfl
      omega
    obtain ⟨k2, hk2⟩ := hd
    have hz : F64.div F64.zero (F64.ofNat 100) = F64.fin false 0 := by
      have hu : 0 < F64.unit := Nat.pos_pow_of_pos _ (by decide)
      have hb : 100 * F64.unit ≠ 0 := by omega
      simp only [F64.div, F64.zero, F64.ofNat, if_neg hb, Bool.xor_false, Nat.zero_mul,
        F64.roundUnits_zero]
    simp only [versionScore, hne, Bool.false_eq_true, if_false, scoreOf, hk2, hz, F64.sqrt,
      F64.mul, Nat.mul_zero, F64.roundUnits_zero, Bool.xor_false]
    simp [F64.div, F64.one, F64.ofNat, F64.posInf, F64.unit]

/-! ## choosePreferredVersion -/

/-- The three rules of `choosePreferredVersion` once the fetch has succeeded and the
availability rule does not apply. -/
theorem choosePreferredVersion_scored (arch : F64 → Int) (m4 m6 : InterfaceMetrics)
    (hav : ¬ (F64.toInt arch m4.Availability ≠ 1 ∧ F64.toInt arch m6.Availability ≠ 1)) :
    choosePreferredVersion arch (.ok ⟨m4, m6⟩) =
      if (F64.eq (versionScore m4) F64.posInf && F64.eq (versionScore m6) F64.posInf) = true then
        (if F64.lt m4.Latency m6.Latency = true then "4" else "6", "lower latency", none)
      else
        (if F64.gt (versionScore m4) (versionScore m6) = true then "4" else "6",
          "higher score", none) := by
  simp only [choosePreferredVersion, if_neg hav]
  by_cases hi : (F64.eq (versionScore m4) F64.posInf && F64.eq (versionScore m6) F64.posInf) = true
  · rw [if_pos hi, if_pos hi]
    by_cases hl : F64.lt m4.Latency m6.Latency = true <;> simp [hl]
  · rw [if_neg hi, if_neg hi]
    by_cases hg : F64.gt (versionScore m4) (versionScore m6) = true <;> simp [hg]

/-- The availability rule of `choosePreferredVersion`. -/
theorem choosePreferredVersion_degraded (arch : F64 → Int) (m4 m6 : InterfaceMetrics)
    (hav : F64.toInt arch m4.Availability ≠ 1 ∧ F64.toInt arch m6.Availability ≠ 1) :
    choosePreferredVersion arch (.ok ⟨m4, m6⟩) =
      (if F64.gt m4.Availability m6.Availability = true then "4" else "6",
        "higher availability", none) := by
  simp only [choosePreferredVersion, if_pos hav]
  by_cases hg : F64.gt m4.Availability m6.Availability = true <;> simp [hg]

/-- C1 (as stated, refuted): family 4 has availability exactly 1, family 6 has availability
0.5, yet the selector returns family 6 with reason "higher score" (scores 0.25 against 1). -/
theorem one_available_counterexample :
    upSlow.Availability = F64.one ∧ F64.lt degradedFast.Availability F64.one = true ∧
    choosePreferredVersion F64.amd64 (.ok ⟨upSlow, degradedFast⟩) =
      ("6", "higher score", none) := by
  decide

/-- C1 (amended): when one family's availability is exactly 1 and the other's is below 1, the
availability rule is skipped and the result is that of the score rules: reason "lower latency"
with the lower-latency family (6 on a tie) when both scores are `+Inf`, otherwise reason
"higher score" with "4" exactly when the score of 4 is strictly greater; the reason is never
"higher availability". -/
theorem one_available_uses_scores (arch : F64 → Int) (m4 m6 : InterfaceMetrics)
    (h : (m4.Availability = F64.one ∧ F64.lt m6.Availability F64.one = true) ∨
      (m6.Availability = F64.one ∧ F64.lt m4.Availability F64.one = true)) :
    choosePreferredVersion arch (.ok ⟨m4, m6⟩) =
      (if (F64.eq (versionScore m4) F64.posInf && F64.eq (versionScore m6) F64.posInf) = true then
        (if F64.lt m4.Latency m6.Latency = true then "4" else "6", "lower latency", none)
      else
        (if F64.gt (versionScore m4) (versionScore m6) = true then "4" else "6",
          "higher score", none)) ∧
    (choosePreferredVersion arch (.ok ⟨m4, m6⟩)).2.1 ≠ "higher availability" := by
  have hc : ¬ (F64.toInt arch m4.Availability ≠ 1 ∧ F64.toInt arch m6.Availability ≠ 1) := by
    rcases h with ⟨h, _⟩ | ⟨h, _⟩
    · rw [h, F64.toInt_one]; simp
    · rw [h, F64.toInt_one]; simp
  have e := choosePreferredVersion_scored arch m4 m6 hc
  refine ⟨e, ?_⟩
  rw [e]
  split
  · show "lower latency" ≠ "higher availability"
    decide
  · show "higher score" ≠ "higher availability"
    decide

/-- An instance of the amended C1: family 4 fully available and slow, family 6 half available and fast. -/
theorem one_available_uses_scores_witness :
    ((upSlow.Availability = F64.one ∧ F64.lt degradedFast.Availability F64.one = true) ∨
      (degradedFast.Availability = F64.one ∧ F64.lt upSlow.Availability F64.one = true)) ∧
    (choosePreferredVersion F64.amd64 (.ok ⟨upSlow, degradedFast⟩) =
      (if (F64.eq (versionScore upSlow) F64.posInf
          && F64.eq (versionScore degradedFast) F64.posInf) = true then
        (if F64.lt upSlow.Latency degradedFast.Latency = true then "4" else "6",
          "lower latency", none)
      else
        (if F64.gt (versionScore upSlow) (versionScore degradedFast) = true then "4" else "6",
          "higher score", none)) ∧
    (choosePreferredVersion F64.amd64 (.ok ⟨upSlow, degradedFast⟩)).2.1
      ≠ "higher availability") :=
  ⟨by decide, one_available_uses_scores F64.amd64 upSlow degradedFast (by decide)⟩

/-- C2: when both availabilities lie in `[0, 1]` and neither equals 1, the selector answers
with reason "higher availability" and returns "4" exactly when the availability of 4 is
strictly greater than that of 6, otherwise "6", whatever the latency and loss values. -/
theorem both_degraded_by_availability (arch : F64 → Int) (m4 m6 : InterfaceMetrics)
    (h4 : F64.le F64.zero m4.Availability = true ∧ F64.le m4.Availability F64.one = true)
    (h6 : F64.le F64.zero m6.Availability = true ∧ F64.le m6.Availability F64.one = true)
    (n4 : F64.eq m4.Availability F64.one = false)
    (n6 : F64.eq m6.Availability F64.one = false) :
    choosePreferredVersion arch (.ok ⟨m4, m6⟩) =
      (if F64.gt m4.Availability m6.Availability = true then "4" else "6",
        "higher availability", none) := by
  have e4 := F64.toInt_unit_interval arch _ h4.1 h4.2 n4
  have e6 := F64.toInt_unit_interval arch _ h6.1 h6.2 n6
  apply choosePreferredVersion_degraded
  rw [e4, e6]
  decide

/-- An instance of C2: availabilities 0.5 and 0.25. -/
theorem both_degraded_by_availability_witness :
    (F64.le F64.zero degradedFast.Availability = true
      ∧ F64.le degradedFast.Availability F64.one = true) ∧
    (F64.le F64.zero degradedMore.Availability = true
      ∧ F64.le degradedMore.Availability F64.one = true) ∧
    F64.eq degradedFast.Availability F64.one = false ∧
    F64.eq degradedMore.Availability F64.one = false ∧
    choosePreferredVersion F64.amd64 (.ok ⟨degradedFast, degradedMore⟩) =
      (if F64.gt degradedFast.Availability degradedMore.Availability = true then "4" else "6",
        "higher availability", none) :=
  ⟨by decide, by decide, by decide, by decide,
    both_degraded_by_availability F64.amd64 degradedFast degradedMore
      (by decide) (by decide) (by decide) (by decide)⟩

/-- C3 (as stated, refuted): both families report loss 0 and nonzero latency (1000 against
2000) but both have availability 0.5; the selector returns family 6 with reason
"higher availability", not the lower-latency family 4 with reason "lower latency". -/
theorem no_loss_counterexample :
    degradedClean1.PacketLoss = F64.zero ∧ degradedClean2.PacketLoss = F64.zero ∧
    F64.eq degradedClean1.Latency F64.zero = false ∧
    F64.eq degradedClean2.Latency F64.zero = false ∧
    F64.lt degradedClean1.Latency degradedClean2.Latency = true ∧
    choosePreferredVersion F64.amd64 (.ok ⟨degradedClean1, degradedClean2⟩) =
      ("6", "higher availability", none) := by
  decide

/-- C3 (amended): when at least one availability truncates to 1 (so the availability rule
does not apply) and both families report loss `+0` and a finite positive latency, the selector
answers with reason "lower latency" and returns "4" exactly when the latency of 4 is
strictly lower, otherwise "6". -/
theorem no_loss_lower_latency (arch : F64 → Int) (m4 m6 : InterfaceMetrics)
    (hav : F64.toInt arch m4.Availability = 1 ∨ F64.toInt arch m6.Availability = 1)
    (hloss4 : m4.PacketLoss = F64.zero) (hloss6 : m6.PacketLoss = F64.zero)
    (hv4 : F64.valid m4.Latency = true) (hv6 : F64.valid m6.Latency = true)
    (hpos4 : F64.lt F64.zero m4.Latency = true) (hpos6 : F64.lt F64.zero m6.Latency = true)
    (hfin4 : F64.lt m4.Latency F64.posInf = true)
    (hfin6 : F64.lt m6.Latency F64.posInf = true) :
    choosePreferredVersion arch (.ok ⟨m4, m6⟩) =
      (if F64.lt m4.Latency m6.Latency = true then "4" else "6", "lower latency", none) := by
  have hc : ¬ (F64.toInt arch m4.Availability ≠ 1 ∧ F64.toInt arch m6.Availability ≠ 1) := by
    rcases hav with h | h <;> simp [h]
  have s4 := versionScore_no_loss m4 hv4 hpos4 hfin4 hloss4
  have s6 := versionScore_no_loss m6 hv6 hpos6 hfin6 hloss6
  rw [choosePreferredVersion_scored arch m4 m6 hc, s4, s6]
  rfl

/-- An instance of the amended C3: both fully available, no loss, latencies 1000 and 2000. -/
theorem no_loss_lower_latency_witness :
    (F64.toInt F64.amd64 upClean1.Availability = 1
      ∨ F64.toInt F64.amd64 upClean2.Availability = 1) ∧
    upClean1.PacketLoss = F64.zero ∧ upClean2.PacketLoss = F64.zero ∧
    F64.valid upClean1.Latency = true ∧ F64.valid upClean2.Latency = true ∧
    F64.lt F64.zero upClean1.Latency = true ∧ F64.lt F64.zero upClean2.Latency = true ∧
    F64.lt upClean1.Latency F64.posInf = true ∧ F64.lt upClean2.Latency F64.posInf = true ∧
    choosePreferredVersion F64.amd64 (.ok ⟨upClean1, upClean2⟩) =
      (if F64.lt upClean1.Latency upClean2.Latency = true then "4" else "6",
        "lower latency", none) :=
  ⟨by decide, by decide, by decide, by decide, by decide, by decide, by decide, by decide,
    by decide,
    no_loss_lower_latency F64.amd64 upClean1 upClean2 (by decide) (by decide) (by decide)
      (by decide) (by decide) (by decide) (by decide) (by decide) (by decide)⟩

/-- C4 (as stated, refuted): latency and loss are nonzero on both sides and the score of
family 4 (1) is strictly higher than that of family 6 (0.25), but both availabilities are
0.5; the selector returns family 6 with reason "higher availability". -/
theorem higher_score_counterexample :
    F64.eq degradedFast.Latency F64.zero = false ∧
    F64.eq degradedSlow.Latency F64.zero = false ∧
    F64.eq degradedFast.PacketLoss F64.zero = false ∧
    F64.eq degradedSlow.PacketLoss F64.zero = false ∧
    F64.gt (scoreOf degradedFast) (scoreOf degradedSlow) = true ∧
    choosePreferredVersion F64.amd64 (.ok ⟨degradedFast, degradedSlow⟩) =
      ("6", "higher availability", none) := by
  decide

/-- C4 (amended): with nonzero latency and nonzero loss on both sides, at least one availability
that truncates to 1 (so the availability rule does not apply) and scores that are not both
`+Inf`, the selector answers with reason "higher score" and returns "4" exactly when the score
`1 / ((latency / 1e6) * sqrt(packetLoss / 100))` of 4 is strictly greater than that of 6,
otherwise "6". -/
theorem higher_score_wins (arch : F64 → Int) (m4 m6 : InterfaceMetrics)
    (hlat4 : F64.eq m4.Latency F64.zero = false) (hlat6 : F64.eq m6.Latency F64.zero = false)
    (_hloss4 : F64.eq m4.PacketLoss F64.zero = false)
    (_hloss6 : F64.eq m6.PacketLoss F64.zero = false)
    (hav : F64.toInt arch m4.Availability = 1 ∨ F64.toInt arch m6.Availability = 1)
    (hinf : ¬ (F64.eq (scoreOf m4) F64.posInf = true ∧ F64.eq (scoreOf m6) F64.posInf = true)) :
    choosePreferredVersion arch (.ok ⟨m4, m6⟩) =
      (if F64.gt (scoreOf m4) (scoreOf m6) = true then "4" else "6", "higher score", none) := by
  have hc : ¬ (F64.toInt arch m4.Availability ≠ 1 ∧ F64.toInt arch m6.Availability ≠ 1) := by
    rcases hav with h | h <;> simp [h]
  have s4 : versionScore m4 = scoreOf m4 := by simp [versionScore, hlat4]
  have s6 : versionScore m6 = scoreOf m6 := by simp [versionScore, hlat6]
  have hi : ¬ ((F64.eq (scoreOf m4) F64.posInf && F64.eq (scoreOf m6) F64.posInf) = true) := by
    simpa using hinf
  rw [choosePreferredVersion_scored arch m4 m6 hc, s4, s6, if_neg hi]

/-- An instance of the amended C4: both fully available, scores 1 and 0.25. -/
theorem higher_score_wins_witness :
    F64.eq upFast.Latency F64.zero = false ∧ F64.eq upSlow.Latency F64.zero = false ∧
    F64.eq upFast.PacketLoss F64.zero = false ∧ F64.eq upSlow.PacketLoss F64.zero = false ∧
    (F64.toInt F64.amd64 upFast.Availability = 1
      ∨ F64.toInt F64.amd64 upSlow.Availability = 1) ∧
    ¬ (F64.eq (scoreOf upFast) F64.posInf = true ∧ F64.eq (scoreOf upSlow) F64.posInf = true) ∧
    choosePreferredVersion F64.amd64 (.ok ⟨upFast, upSlow⟩) =
      (if F64.gt (scoreOf upFast) (scoreOf upSlow) = true then "4" else "6",
        "higher score", none) :=
  ⟨by decide, by decide, by decide, by decide, by decide, by decide,
    higher_score_wins F64.amd64 upFast upSlow (by decide) (by decide) (by decide) (by decide)
      (by decide) (by decide)⟩

/-- C5 (as stated, refuted): latency and loss are nonzero on both sides and the two scores are
equal (both 1); the selector returns family 6 for the pair and family 6 again for the
swapped pair. -/
theorem swap_counterexample :
    F64.eq upFast.Latency F64.zero = false ∧ F64.eq upMid.Latency F64.zero = false ∧
    F64.eq upFast.PacketLoss F64.zero = false ∧ F64.eq upMid.PacketLoss F64.zero = false ∧
    (choosePreferredVersion F64.amd64 (.ok ⟨upFast, upMid⟩)).1 = "6" ∧
    (choosePreferredVersion F64.amd64 (.ok ⟨upMid, upFast⟩)).1 = "6" := by
  decide

/-- C5 (amended): with nonzero latency and nonzero loss on both sides, if the comparison that
decides the call is strict one way or the other (availabilities in the both-degraded case,
latencies when both scores are `+Inf`, scores otherwise), the selector on the swapped input
returns the other family; if it is a tie, both orders return "6". -/
theorem swap_swaps_unless_tie (arch : F64 → Int) (m4 m6 : InterfaceMetrics)
    (_hlat4 : F64.eq m4.Latency F64.zero = false) (_hlat6 : F64.eq m6.Latency F64.zero = false)
    (_hloss4 : F64.eq m4.PacketLoss F64.zero = false)
    (_hloss6 : F64.eq m6.PacketLoss F64.zero = false) :
    (decidingTie arch m4 m6 = false →
      (choosePreferredVersion arch (.ok ⟨m6, m4⟩)).1 =
        otherFamily (choosePreferredVersion arch (.ok ⟨m4, m6⟩)).1) ∧
    (decidingTie arch m4 m6 = true →
      (choosePreferredVersion arch (.ok ⟨m4, m6⟩)).1 = "6" ∧
      (choosePreferredVersion arch (.ok ⟨m6, m4⟩)).1 = "6") := by
  by_cases hav : F64.toInt arch m4.Availability ≠ 1 ∧ F64.toInt arch m6.Availability ≠ 1
  · rw [choosePreferredVersion_degraded arch m4 m6 hav,
      choosePreferredVersion_degraded arch m6 m4 ⟨hav.2, hav.1⟩]
    simp only [decidingTie, if_pos hav]
    have ha := F64.lt_asymm m6.Availability m4.Availability
    cases h1 : F64.gt m4.Availability m6.Availability <;>
      cases h2 : F64.gt m6.Availability m4.Availability <;>
      simp_all [F64.gt, otherFamily]
  · have hav2 : ¬ (F64.toInt arch m6.Availability ≠ 1 ∧ F64.toInt arch m4.Availability ≠ 1) :=
      fun h => hav ⟨h.2, h.1⟩
    rw [choosePreferredVersion_scored arch m4 m6 hav,
      choosePreferredVersion_scored arch m6 m4 hav2]
    simp only [decidingTie, if_neg hav]
    by_cases hi :
        (F64.eq (versionScore m4) F64.posInf && F64.eq (versionScore m6) F64.posInf) = true
    · have hi2 : (F64.eq (versionScore m6) F64.posInf
          && F64.eq (versionScore m4) F64.posInf) = true := by
        rw [Bool.and_comm]; exact hi
      rw [if_pos hi, if_pos hi2, if_pos hi]
      have ha := F64.lt_asymm m4.Latency m6.Latency
      cases h1 : F64.lt m4.Latency m6.Latency <;>
        cases h2 : F64.lt m6.Latency m4.Latency <;>
        simp_all [otherFamily]
    · have hi2 : ¬ ((F64.eq (versionScore m6) F64.posInf
          && F64.eq (versionScore m4) F64.posInf) = true) := by
        rw [Bool.and_comm]; exact hi
      rw [if_neg hi, if_neg hi2, if_neg hi]
      have ha := F64.lt_asymm (versionScore m6) (versionScore m4)
      cases h1 : F64.gt (versionScore m4) (versionScore m6) <;>
        cases h2 : F64.gt (versionScore m6) (versionScore m4) <;>
        simp_all [F64.gt, otherFamily]

/-- An instance of the amended C5: scores 1 and 0.25, no tie. -/
theorem swap_swaps_unless_tie_witness :
    F64.eq upFast.Latency F64.zero = false ∧ F64.eq upSlow.Latency F64.zero = false ∧
    F64.eq upFast.PacketLoss F64.zero = false ∧ F64.eq upSlow.PacketLoss F64.zero = false ∧
    decidingTie F64.amd64 upFast upSlow = false ∧
    ((decidingTie F64.amd64 upFast upSlow = false →
      (choosePreferredVersion F64.amd64 (.ok ⟨upSlow, upFast⟩)).1 =
        otherFamily (choosePreferredVersion F64.amd64 (.ok ⟨upFast, upSlow⟩)).1) ∧
    (decidingTie F64.amd64 upFast upSlow = true →
      (choosePreferredVersion F64.amd64 (.ok ⟨upFast, upSlow⟩)).1 = "6" ∧
      (choosePreferredVersion F64.amd64 (.ok ⟨upSlow, upFast⟩)).1 = "6")) :=
  ⟨by decide, by decide, by decide, by decide, by decide,
    swap_swaps_unless_tie F64.amd64 upFast upSlow (by decide) (by decide) (by decide)
      (by decide)⟩

/-- C6: when the two families have the same availability, latency and packet loss the
selector returns "6", and whenever the fetch succeeds it returns "4" or "6" with no error,
never the empty version. -/
theorem ties_resolve_to_six (arch : F64 → Int) :
    (∀ m4 m6 : InterfaceMetrics, m4.Availability = m6.Availability →
      m4.Latency = m6.Latency → m4.PacketLoss = m6.PacketLoss →
      (choosePreferredVersion arch (.ok ⟨m4, m6⟩)).1 = "6") ∧
    (∀ ms : MetricsMap,
      ((choosePreferredVersion arch (.ok ms)).1 = "4"
        ∨ (choosePreferredVersion arch (.ok ms)).1 = "6") ∧
      (choosePreferredVersion arch (.ok ms)).1 ≠ "" ∧
      (choosePreferredVersion arch (.ok ms)).2.2 = none) := by
  constructor
  · intro m4 m6 ha hl hp
    have hs : versionScore m4 = versionScore m6 := by
      simp [versionScore, scoreOf, hl, hp]
    by_cases hav : F64.toInt arch m4.Availability ≠ 1 ∧ F64.toInt arch m6.Availability ≠ 1
    · rw [choosePreferredVersion_degraded arch m4 m6 hav, ha]
      simp [F64.gt, F64.lt_irrefl]
    · rw [choosePreferredVersion_scored arch m4 m6 hav, hs, hl]
      split <;> simp [F64.gt, F64.lt_irrefl]
  · intro ms
    obtain ⟨m4, m6⟩ := ms
    by_cases hav : F64.toInt arch m4.Availability ≠ 1 ∧ F64.toInt arch m6.Availability ≠ 1
    · rw [choosePreferredVersion_degraded arch m4 m6 hav]
      split <;> simp
    · rw [choosePreferredVersion_scored arch m4 m6 hav]
      split <;> split <;> simp

/-- An instance of C6: scores 1 and 1 from equal metrics, and both zero from empty metrics. -/
theorem ties_resolve_to_six_witness :
    (choosePreferredVersion F64.amd64 (.ok ⟨upFast, upFast⟩)).1 = "6" ∧
    (choosePreferredVersion F64.amd64
      (.ok ⟨⟨F64.zero, F64.zero, F64.zero, F64.zero⟩,
        ⟨F64.zero, F64.zero, F64.zero, F64.zero⟩⟩)).1 = "6" :=
  ⟨(ties_resolve_to_six F64.amd64).1 upFast upFast rfl rfl rfl,
    (ties_resolve_to_six F64.amd64).1 _ _ rfl rfl rfl⟩

/-! ## Route reconciliation -/

theorem ifaceName_ne_empty (localID remote version : String) :
    ifaceName localID remote version ≠ "" := by
  intro h
  have h2 := congrArg String.length h
  simp only [ifaceName, String.length_append] at h2
  have h3 : "wg".length = 2 := by decide
  have h4 : "".length = 0 := by decide
  omega

/-- C7: with `installed = GetOutgoingWGInterface(remote)`: if it is empty the two `add`
commands are run, IPv4 first; if it is non-empty and differs from the desired interface the
same two commands with `change`; if it equals the desired interface no command is run. -/
theorem reconcile_commands (localID remote version : String)
    (table : Except String (List Route)) :
    (GetOutgoingWGInterface table remote = "" →
      routeCommands localID remote version (GetOutgoingWGInterface table remote) =
        [["ip", "route", "add", "10.201." ++ remote ++ ".0/24", "dev",
            "wg" ++ localID ++ "." ++ remote ++ "_v" ++ version, "scope", "link", "src",
            "10.201." ++ localID ++ ".1"],
         ["ip", "-6", "route", "add", "fdac:c9:" ++ remote ++ "::/64", "dev",
            "wg" ++ localID ++ "." ++ remote ++ "_v" ++ version, "scope", "link"]]) ∧
    (GetOutgoingWGInterface table remote ≠ "" →
      GetOutgoingWGInterface table remote ≠ "wg" ++ localID ++ "." ++ remote ++ "_v" ++ version →
      routeCommands localID remote version (GetOutgoingWGInterface table remote) =
        [["ip", "route", "change", "10.201." ++ remote ++ ".0/24", "dev",
            "wg" ++ localID ++ "." ++ remote ++ "_v" ++ version, "scope", "link", "src",
            "10.201." ++ localID ++ ".1"],
         ["ip", "-6", "route", "change", "fdac:c9:" ++ remote ++ "::/64", "dev",
            "wg" ++ localID ++ "." ++ remote ++ "_v" ++ version, "scope", "link"]]) ∧
    (GetOutgoingWGInterface table remote = "wg" ++ localID ++ "." ++ remote ++ "_v" ++ version →
      routeCommands localID remote version (GetOutgoingWGInterface table remote) = []) := by
  refine ⟨?_, ?_, ?_⟩
  · intro h
    simp [routeCommands, h, ifaceName]
  · intro h1 h2
    simp [routeCommands, h1, h2, ifaceName]
  · intro h
    have hne := ifaceName_ne_empty localID remote version
    simp only [ifaceName] at hne
    simp [routeCommands, h, ifaceName, hne]

/-- An instance of C7: the installed route goes through `wg1.5_v6`, the desired family is 4. -/
theorem reconcile_commands_witness :
    GetOutgoingWGInterface tableV6 "5" = "wg1.5_v6" ∧
    routeCommands "1" "5" "4" (GetOutgoingWGInterface tableV6 "5") =
      [["ip", "route", "change", "10.201.5.0/24", "dev", "wg1.5_v4", "scope", "link", "src",
          "10.201.1.1"],
       ["ip", "-6", "route", "change", "fdac:c9:5::/64", "dev", "wg1.5_v4", "scope", "link"]] :=
  ⟨by decide, (reconcile_commands "1" "5" "4" tableV6).2.1 (by decide) (by decide)⟩

theorem digitChar_ne_dot (n : Nat) : Nat.digitChar (n % 10) ≠ '.' := by
  have h : n % 10 < 10 := Nat.mod_lt _ (by decide)
  generalize n % 10 = m at h
  interval_cases m <;> decide

theorem toDigitsCore_no_dot (fuel : Nat) : ∀ (n : Nat) (ds : List Char),
    (∀ c ∈ ds, c ≠ '.') → ∀ c ∈ Nat.toDigitsCore 10 fuel n ds, c ≠ '.' := by
  induction fuel with
  | zero =>
    intro n ds h c hc
    exact h c (by simpa [Nat.toDigitsCore] using hc)
  | succ f ih =>
    intro n ds h c hc
    have hd : ∀ c ∈ Nat.digitChar (n % 10) :: ds, c ≠ '.' := by
      intro c hc
      rcases List.mem_cons.1 hc with h1 | h1
      · rw [h1]; exact digitChar_ne_dot n
      · exact h c h1
    simp only [Nat.toDigitsCore] at hc
    split at hc
    · exact hd c hc
    · exact ih _ _ hd c hc

theorem toString_no_dot (n : Nat) : ∀ c ∈ (toString n).data, c ≠ '.' := by
  intro c hc
  have : (toString n).data = Nat.toDigits 10 n := rfl
  rw [this] at hc
  exact toDigitsCore_no_dot _ _ _ (by simp) c hc

theorem splitChars_single (sep : Char) (xs : List Char) (h : ∀ c ∈ xs, c ≠ sep) :
    splitChars sep xs = [xs] := by
  induction xs with
  | nil => rfl
  | cons x xs ih =>
    have hx : x ≠ sep := h x (by simp)
    have ih2 := ih (fun c hc => h c (by simp [hc]))
    simp [splitChars, hx, ih2]

theorem splitChars_append (sep : Char) (xs rest : List Char) (h : ∀ c ∈ xs, c ≠ sep) :
    splitChars sep (xs ++ sep :: rest) = xs :: splitChars sep rest := by
  induction xs with
  | nil => simp [splitChars]
  | cons x xs ih =>
    have hx : x ≠ sep := h x (by simp)
    have ih2 := ih (fun c hc => h c (by simp [hc]))
    simp [splitChars, hx, ih2]

/-- The pieces of a dotted-decimal address are its four decimal octets. -/
theorem stringsSplit_IP (ip : IP) :
    stringsSplit ip.String '.' =
      [toString ip.b0, toString ip.b1, toString ip.b2, toString ip.b3] := by
  have hdot : (".").data = ['.'] := rfl
  simp only [stringsSplit, IP.String, String.data_append, hdot, List.append_assoc,
    List.singleton_append, List.cons_append, List.nil_append]
  rw [splitChars_append _ _ _ (toString_no_dot ip.b0),
    splitChars_append _ _ _ (toString_no_dot ip.b1),
    splitChars_append _ _ _ (toString_no_dot ip.b2),
    splitChars_single _ _ (toString_no_dot ip.b3)]
  rfl

/-- A route whose destination is `x.201.r.0` passes the test for the remote written `r`. -/
theorem routeMatches_canonical (x r : Nat) (route : Route)
    (hdst : route.Destination = ⟨x, 201, r, 0⟩) : routeMatches (toString r) route = true := by
  have h201 : toString 201 = "201" := by decide
  have h0 : toString 0 = "0" := by decide
  simp [routeMatches, stringsSplit_IP, hdst, h201, h0]

theorem find_first_match (dst : String) (pre post : List Route) (route : Route)
    (hfirst : ∀ p ∈ pre, routeMatches dst p = false) (hm : routeMatches dst route = true) :
    (pre ++ route :: post).find? (routeMatches dst) = some route := by
  induction pre with
  | nil => simp [List.find?, hm]
  | cons p ps ih =>
    have hp : routeMatches dst p = false := hfirst p (by simp)
    have ih2 := ih (fun q hq => hfirst q (by simp [hq]))
    simp [List.find?, hp, ih2]

/-- C8 (as stated, refuted): the route 10.201.5.0/24 bound to the desired interface
`wg1.5_v4` is installed, but the table lists a route 10.201.5.0/25 through `wg1.5_v6` before
it; `GetOutgoingWGInterface` reads `wg1.5_v6` and the reconciliation issues two commands. -/
theorem idempotence_counterexample :
    tableV6ThenV4 = .ok [routeVia ⟨10, 201, 5, 0⟩ mask25 "wg1.5_v6",
      routeVia ⟨10, 201, 5, 0⟩ mask24 (ifaceName "1" "5" "4")] ∧
    GetOutgoingWGInterface tableV6ThenV4 "5" = "wg1.5_v6" ∧
    routeCommands "1" "5" "4" (GetOutgoingWGInterface tableV6ThenV4 "5") =
      [["ip", "route", "change", "10.201.5.0/24", "dev", "wg1.5_v4", "scope", "link", "src",
          "10.201.1.1"],
       ["ip", "-6", "route", "change", "fdac:c9:5::/64", "dev", "wg1.5_v4", "scope", "link"]] :=
  ⟨rfl, by decide, by decide⟩

/-- C8 (amended): when the route to `10.201.<remote>.0` bound to the desired interface is the
first route of the table that passes the test of `GetOutgoingWGInterface` for the remote (in
particular when it is the only one), a reconciliation with the same desired family reads the
desired interface back and issues no command. -/
theorem idempotent_when_read_back (localID remote version : String) (r : Nat)
    (pre post : List Route) (route : Route)
    (hremote : remote = toString r)
    (hdst : route.Destination = ⟨10, 201, r, 0⟩)
    (hiface : route.Iface = ifaceName localID remote version)
    (hfirst : ∀ p ∈ pre, routeMatches remote p = false) :
    GetOutgoingWGInterface (.ok (pre ++ route :: post)) remote
      = ifaceName localID remote version ∧
    routeCommands localID remote version
      (GetOutgoingWGInterface (.ok (pre ++ route :: post)) remote) = [] := by
  subst hremote
  have hm := routeMatches_canonical 10 r route hdst
  have hf := find_first_match (toString r) pre post route hfirst hm
  have hg : GetOutgoingWGInterface (.ok (pre ++ route :: post)) (toString r)
      = ifaceName localID (toString r) version := by
    simp [GetOutgoingWGInterface, hf, hiface]
  refine ⟨hg, ?_⟩
  rw [hg]
  simp [routeCommands, ifaceName_ne_empty]

/-- An instance of the amended C8: a route for remote 7 precedes the installed route for remote 5. -/
theorem idempotent_when_read_back_witness :
    "5" = toString 5 ∧
    (routeVia ⟨10, 201, 5, 0⟩ mask24 "wg1.5_v4").Destination = ⟨10, 201, 5, 0⟩ ∧
    (routeVia ⟨10, 201, 5, 0⟩ mask24 "wg1.5_v4").Iface = ifaceName "1" "5" "4" ∧
    (∀ p ∈ [routeVia ⟨10, 201, 7, 0⟩ mask24 "wg1.7_v6"], routeMatches "5" p = false) ∧
    (GetOutgoingWGInterface (.ok ([routeVia ⟨10, 201, 7, 0⟩ mask24 "wg1.7_v6"]
        ++ routeVia ⟨10, 201, 5, 0⟩ mask24 "wg1.5_v4" :: [])) "5" = ifaceName "1" "5" "4" ∧
      routeCommands "1" "5" "4"
        (GetOutgoingWGInterface (.ok ([routeVia ⟨10, 201, 7, 0⟩ mask24 "wg1.7_v6"]
          ++ routeVia ⟨10, 201, 5, 0⟩ mask24 "wg1.5_v4" :: [])) "5") = []) :=
  ⟨by decide, by decide, by decide, by decide,
    idempotent_when_read_back "1" "5" "4" 5 [routeVia ⟨10, 201, 7, 0⟩ mask24 "wg1.7_v6"] []
      (routeVia ⟨10, 201, 5, 0⟩ mask24 "wg1.5_v4") (by decide) (by decide) (by decide)
      (by decide)⟩

/-! ## The cold-start flag -/

theorem length_of_two_mem (l : List String) (a b : String) (ha : a ∈ l) (hb : b ∈ l)
    (hab : a ≠ b) : 1 < l.length := by
  match l, ha, hb with
  | [x], ha, hb =>
    simp only [List.mem_singleton] at ha hb
    exact absurd (ha.trans hb.symm) hab
  | _ :: _ :: _, _, _ => simp

theorem remoteVersions_mem (ifaces : List WGInterface) (remote : String) (i : WGInterface)
    (hi : i ∈ ifaces) (hr : i.RemoteID = remote) : i.IPVersion ∈ remoteVersions ifaces remote := by
  simp only [remoteVersions, List.mem_map, List.mem_filter, decide_eq_true_eq]
  exact ⟨i, ⟨hi, hr⟩, rfl⟩

/-- C9: for a remote with an interface of each family, the first pass (`justStarted` true)
reconciles towards family "4" whatever `choosePreferredVersion` returns, a failed fetch
included; a pass with `justStarted` false uses the selector's version and runs no command when
that version is empty; and of the passes `startWorker` makes only the first sees
`justStarted` true. -/
theorem cold_start_override (arch : F64 → Int) (localID remote : String)
    (table : Except String (List Route)) (ifaces : List WGInterface)
    (fetched : Except String MetricsMap) (i4 i6 : WGInterface)
    (h4 : i4 ∈ ifaces) (h6 : i6 ∈ ifaces)
    (hr4 : i4.RemoteID = remote) (hr6 : i6.RemoteID = remote)
    (hv4 : i4.IPVersion = "4") (hv6 : i6.IPVersion = "6") :
    (selectVersion arch true (remoteVersions ifaces remote) fetched).map Prod.fst = some "4" ∧
    updateRemote arch localID true table remote (remoteVersions ifaces remote) fetched =
      routeCommands localID remote "4" (GetOutgoingWGInterface table remote) ∧
    (selectVersion arch false (remoteVersions ifaces remote) fetched).map Prod.fst =
      (if (choosePreferredVersion arch fetched).1 = "" then none
        else some (choosePreferredVersion arch fetched).1) ∧
    ((choosePreferredVersion arch fetched).1 = "" →
      updateRemote arch localID false table remote (remoteVersions ifaces remote) fetched = []) ∧
    ((choosePreferredVersion arch fetched).1 ≠ "" →
      updateRemote arch localID false table remote (remoteVersions ifaces remote) fetched =
        routeCommands localID remote (choosePreferredVersion arch fetched).1
          (GetOutgoingWGInterface table remote)) ∧
    (∀ ticks : Nat, (startWorker ticks).head? = some true ∧
      ∀ f ∈ (startWorker ticks).tail, f = false) := by
  have m4 := remoteVersions_mem ifaces remote i4 h4 hr4
  have m6 := remoteVersions_mem ifaces remote i6 h6 hr6
  rw [hv4] at m4
  rw [hv6] at m6
  have hlen := length_of_two_mem _ "4" "6" m4 m6 (by decide)
  generalize remoteVersions ifaces remote = versions at hlen
  rcases hc : choosePreferredVersion arch fetched with ⟨version, reason, err⟩
  refine ⟨?_, ?_, ?_, ?_, ?_, ?_⟩
  · simp [selectVersion, hlen, hc]
  · simp [updateRemote, selectVersion, hlen, hc]
  · by_cases hv : version = "" <;> simp [selectVersion, hlen, hc, hv]
  · intro hv
    simp only at hv
    simp [updateRemote, selectVersion, hlen, hc, hv]
  · intro hv
    simp only at hv
    simp [updateRemote, selectVersion, hlen, hc, hv]
  · intro ticks
    refine ⟨rfl, ?_⟩
    intro f hf
    simp only [startWorker, List.tail_cons] at hf
    exact (List.mem_replicate.1 hf).2

/-- An instance of C9: the selector prefers family 6, the first pass reconciles towards 4. -/
theorem cold_start_override_witness :
    (⟨"wg1.5_v4", "5", "4"⟩ : WGInterface) ∈ ifacesBoth ∧
    (⟨"wg1.5_v6", "5", "6"⟩ : WGInterface) ∈ ifacesBoth ∧
    (choosePreferredVersion F64.amd64 (.ok ⟨upSlow, upFast⟩)).1 = "6" ∧
    updateRemote F64.amd64 "1" true tableV6 "5" (remoteVersions ifacesBoth "5")
        (.ok ⟨upSlow, upFast⟩) =
      routeCommands "1" "5" "4" (GetOutgoingWGInterface tableV6 "5") :=
  ⟨by decide, by decide, by decide,
    (cold_start_override F64.amd64 "1" "5" tableV6 ifacesBoth (.ok ⟨upSlow, upFast⟩)
      ⟨"wg1.5_v4", "5", "4"⟩ ⟨"wg1.5_v6", "5", "6"⟩ (by decide) (by decide) rfl rfl rfl rfl).2.1⟩

/-! ## getPathLabel -/

theorem digitChar_spec (n : Nat) :
    '0' ≤ Nat.digitChar (n % 10) ∧ Nat.digitChar (n % 10) ≤ '9' ∧
    (Nat.digitChar (n % 10)).toNat - '0'.toNat = n % 10 ∧
    Nat.digitChar (n % 10) ≠ '-' ∧ Nat.digitChar (n % 10) ≠ '+' := by
  have h : n % 10 < 10 := Nat.mod_lt _ (by decide)
  generalize n % 10 = m at h
  interval_cases m <;> decide

theorem parseDigits_toDigitsCore (fuel : Nat) : ∀ (n : Nat) (ds : List Char), n < fuel →
    parseDigits (Nat.toDigitsCore 10 fuel n ds) 0 = parseDigits ds n := by
  induction fuel with
  | zero => intro n ds h; omega
  | succ f ih =>
    intro n ds h
    obtain ⟨d1, d2, d3, _, _⟩ := digitChar_spec n
    have step : parseDigits (Nat.digitChar (n % 10) :: ds) (n / 10) = parseDigits ds n := by
      simp only [parseDigits, d1, d2, and_self, if_true, d3]
      congr 1
      omega
    simp only [Nat.toDigitsCore]
    split
    · rename_i h0
      have hn : n % 10 = n := by omega
      simp only [parseDigits, d1, d2, and_self, if_true, d3]
      congr 1
      omega
    · rename_i h0
      rw [ih _ _ (by omega), step]

theorem toDigitsCore_head (fuel : Nat) : ∀ (n : Nat) (ds : List Char),
    ∃ m rest, Nat.toDigitsCore 10 (fuel + 1) n ds = Nat.digitChar (m % 10) :: rest := by
  induction fuel with
  | zero =>
    intro n ds
    refine ⟨n, ds, ?_⟩
    rw [Nat.toDigitsCore]
    split
    · rfl
    · rfl
  | succ f ih =>
    intro n ds
    rw [Nat.toDigitsCore]
    split
    · exact ⟨n, ds, rfl⟩
    · exact ih _ _

theorem parseUint_toString (n : Nat) : parseUint (toString n).data = some n := by
  have hd : (toString n).data = Nat.toDigitsCore 10 (n + 1) n [] := rfl
  obtain ⟨m, rest, hm⟩ := toDigitsCore_head n n []
  have hp := parseDigits_toDigitsCore (n + 1) n [] (by omega)
  rw [hd, parseUint, if_neg (by rw [hm]; simp), hp]
  rfl

theorem Atoi_toString_nat (n : Nat) (h : n < 2 ^ 63) : Atoi (toString n) = some (n : Int) := by
  have hd : (toString n).data = Nat.toDigitsCore 10 (n + 1) n [] := rfl
  obtain ⟨m, rest, hm⟩ := toDigitsCore_head n n []
  obtain ⟨_, _, _, e1, e2⟩ := digitChar_spec m
  have hp := parseUint_toString n
  rw [hd, hm] at hp
  unfold Atoi
  rw [hd, hm]
  split
  · rename_i heq; simp at heq
  · rename_i heq
    simp only [List.cons.injEq] at heq
    exact absurd heq.1 e1
  · rename_i heq
    simp only [List.cons.injEq] at heq
    exact absurd heq.1 e2
  · have h2 : n < 9223372036854775808 := by omega
    simp [hp, h2]

/-- Parsing the numeral of an `int` gives the `int` back. -/
theorem Atoi_Itoa (a : Int) (hlo : -(2 ^ 63 : Int) ≤ a) (hhi : a < 2 ^ 63) :
    Atoi (Itoa a) = some a := by
  cases a with
  | ofNat n =>
    have hn : n < 2 ^ 63 := by
      have : (n : Int) < 2 ^ 63 := hhi
      omega
    exact Atoi_toString_nat n hn
  | negSucc n =>
    have hn : n + 1 ≤ 2 ^ 63 := by
      have h1 : -(2 ^ 63 : Int) ≤ Int.negSucc n := hlo
      have h2 : Int.negSucc n = -((n : Int) + 1) := rfl
      omega
    have hs : (Itoa (Int.negSucc n)).data = '-' :: (toString (n + 1)).data := rfl
    unfold Atoi
    rw [hs]
    simp only [parseUint_toString, if_pos hn]
    rfl

/-- C10: for node ids that parse as the integers `a` and `b`, the label with local `a` and
remote `b` and the label with the two exchanged are both the decimal numeral of `min a b`, a
hyphen, and the decimal numeral of `max a b`, in particular for the numerals of any two
`int` values; if either id does not parse, the label is empty. Local 3 with remote 7 and
local 7 with remote 3 both give "3-7". -/
theorem getPathLabel_canonical (l r : String) :
    (∀ a b : Int, Atoi l = some a → Atoi r = some b →
      getPathLabel l r = Itoa (min a b) ++ "-" ++ Itoa (max a b) ∧
      getPathLabel r l = Itoa (min a b) ++ "-" ++ Itoa (max a b)) ∧
    ((Atoi l = none ∨ Atoi r = none) → getPathLabel l r = "") ∧
    (∀ a b : Int, -(2 ^ 63 : Int) ≤ a → a < 2 ^ 63 → -(2 ^ 63 : Int) ≤ b → b < 2 ^ 63 →
      getPathLabel (Itoa a) (Itoa b) = Itoa (min a b) ++ "-" ++ Itoa (max a b) ∧
      getPathLabel (Itoa b) (Itoa a) = Itoa (min a b) ++ "-" ++ Itoa (max a b)) ∧
    getPathLabel "3" "7" = "3-7" ∧ getPathLabel "7" "3" = "3-7" := by
  have main : ∀ (l r : String) (a b : Int), Atoi l = some a → Atoi r = some b →
      getPathLabel l r = Itoa (min a b) ++ "-" ++ Itoa (max a b) ∧
      getPathLabel r l = Itoa (min a b) ++ "-" ++ Itoa (max a b) := by
    intro l r a b ha hb
    simp only [getPathLabel, ha, hb]
    constructor
    · by_cases h : a > b
      · rw [if_pos h, min_eq_right (le_of_lt h), max_eq_left (le_of_lt h)]
      · rw [if_neg h, min_eq_left (not_lt.1 h), max_eq_right (not_lt.1 h)]
    · by_cases h : b > a
      · rw [if_pos h, min_eq_left (le_of_lt h), max_eq_right (le_of_lt h)]
      · rw [if_neg h, min_eq_right (not_lt.1 h), max_eq_left (not_lt.1 h)]
  refine ⟨main l r, ?_, ?_, by decide, by decide⟩
  · intro h
    rcases h with h | h
    · simp [getPathLabel, h]
    · cases hl : Atoi l <;> simp [getPathLabel, hl, h]
  · intro a b ha1 ha2 hb1 hb2
    exact main _ _ a b (Atoi_Itoa a ha1 ha2) (Atoi_Itoa b hb1 hb2)

/-- An instance of C10: node ids 3 and 7, and an id that does not parse. -/
theorem getPathLabel_canonical_witness :
    Atoi "3" = some 3 ∧ Atoi "7" = some 7 ∧
    getPathLabel "3" "7" = Itoa (min 3 7) ++ "-" ++ Itoa (max 3 7) ∧
    getPathLabel "7" "3" = Itoa (min 3 7) ++ "-" ++ Itoa (max 3 7) ∧
    Atoi "x7" = none ∧ getPathLabel "3" "x7" = "" :=
  ⟨by decide, by decide,
    ((getPathLabel_canonical "3" "7").1 3 7 (by decide) (by decide)).1,
    ((getPathLabel_canonical "3" "7").1 3 7 (by decide) (by decide)).2,
    by decide, (getPathLabel_canonical "3" "x7").2.1 (Or.inr (by decide))⟩
